import Mathlib

/-!
Shallow embedding of `src/tcltl.cc` (TCLTL: a model checker for timed
automata, bridging tchecker zone graphs to Spot Kripke structures).

Every BDD ever built by this adapter is a conjunction of literals over
propositional variables (the code only combines `bddtrue`, `bddfalse`,
`bdd_ithvar`, `bdd_nithvar` with `&=`).  We therefore embed `bdd` as either
the constant false or a finite list of literals, together with its semantic
evaluation.  Spot BDDs are canonical, so the pointer comparison
`scond != bddfalse` in the source is embedded as the (syntactically
decidable) unsatisfiability test `bddIsFalseB`; the lemma
`bddIsFalseB_iff_unsat` below justifies this reading.
-/

/-- A propositional literal: variable number and polarity. -/
abbrev Lit := Nat × Bool

/-- Embedding of the BDDs manipulated by tcltl.cc: the constant false, or a
conjunction of literals (`lits []` is `bddtrue`). -/
inductive bdd where
  | ff : bdd
  | lits : List Lit → bdd
deriving DecidableEq

/-- Embedding of `bddtrue`: the empty conjunction. -/
def bddtrue : bdd := bdd.lits []

/-- Embedding of `bddfalse`. -/
def bddfalse : bdd := bdd.ff

/-- Embedding of `bdd_ithvar n`: positive literal. -/
def bdd_ithvar (n : Nat) : bdd := bdd.lits [(n, true)]

/-- Embedding of `bdd_nithvar n`: negative literal. -/
def bdd_nithvar (n : Nat) : bdd := bdd.lits [(n, false)]

/-- Conjunction (`&` / `&=` in the source). -/
def bddAnd : bdd → bdd → bdd
  | bdd.ff, _ => bdd.ff
  | bdd.lits _, bdd.ff => bdd.ff
  | bdd.lits a, bdd.lits b => bdd.lits (a ++ b)

/-- Evaluation of one literal under a valuation. -/
def evalLit (v : Nat → Bool) (p : Lit) : Bool := v p.1 == p.2

/-- Semantic evaluation of an embedded BDD. -/
def bddEval (v : Nat → Bool) : bdd → Bool
  | bdd.ff => false
  | bdd.lits l => l.all (evalLit v)

/-- Decidable test for the constant-false BDD: a conjunction of literals is
unsatisfiable exactly when it contains complementary literals.  This embeds
the canonical-BDD comparison `b == bddfalse` of the source. -/
def bddIsFalseB : bdd → Bool
  | bdd.ff => true
  | bdd.lits l => l.any (fun p => l.any (fun q => p.1 == q.1 && p.2 != q.2))

/-- Semantic implication between embedded BDDs ("the label includes b"). -/
def bddImp (a b : bdd) : Prop := ∀ v, bddEval v a = true → bddEval v b = true

/-! ## Zone-graph states and atomic-proposition rules -/

/-- Embedding of the observable part of a tchecker zone-graph state: the
location vector (`vloc`, location ids per process) and the integer-variable
valuation (`intvars_valuation`).  Structural equality of states is equality
of these observations. -/
structure ZState where
  vloc : List Nat
  intvars : List Int
deriving DecidableEq

/-- The comparison operators of the source (`relop` enum). -/
inductive relop where
  | OP_EQ | OP_NE | OP_LT | OP_GT | OP_LE | OP_GE | OP_AT
deriving DecidableEq

/-- Embedding of `struct one_prop` of the source. -/
structure one_prop where
  var_num : Nat
  op : relop
  val : Int
  bddvar : Nat
deriving DecidableEq

/-- Whether one rule holds on a state: the per-prop test inside
`tcltl_kripke::state_condition`.  For `OP_AT` the source compares the
unsigned location id with `unsigned(prop.val)`; location ids are machine
unsigned values, embedded as the comparison modulo 2^32. -/
def prop_holds (z : ZState) (p : one_prop) : Bool :=
  match p.op with
  | relop.OP_AT => z.vloc.getD p.var_num 0 == (p.val.emod 4294967296).toNat
  | relop.OP_EQ => z.intvars.getD p.var_num 0 == p.val
  | relop.OP_NE => z.intvars.getD p.var_num 0 != p.val
  | relop.OP_LT => decide (z.intvars.getD p.var_num 0 < p.val)
  | relop.OP_GT => decide (p.val < z.intvars.getD p.var_num 0)
  | relop.OP_LE => decide (z.intvars.getD p.var_num 0 ≤ p.val)
  | relop.OP_GE => decide (p.val ≤ z.intvars.getD p.var_num 0)

/-- Embedding of `tcltl_kripke::state_condition`: the conjunction, over the proposition
list, of the rule's bdd variable with the polarity of the rule's truth
value on the state. -/
def state_condition (z : ZState) (ps : List one_prop) : bdd :=
  bdd.lits (ps.map (fun p => (p.bddvar, prop_holds z p)))

/-! ## The aliveness marker (tcltl_kripke constructor) -/

/-- The three shapes the configured `dead` formula can take, as distinguished
by the `tcltl_kripke` constructor: `is_ff()`, `is_tt()`, or a named
proposition registered under bdd variable `v`. -/
inductive DeadSpec where
  | ff | tt | ap (v : Nat)
deriving DecidableEq

/-- The `alive_prop` member as set by the `tcltl_kripke` constructor. -/
def alive_prop : DeadSpec → bdd
  | DeadSpec.ff => bddtrue
  | DeadSpec.tt => bddtrue
  | DeadSpec.ap v => bdd_nithvar v

/-- The `dead_prop` member as set by the `tcltl_kripke` constructor. -/
def dead_prop : DeadSpec → bdd
  | DeadSpec.ff => bddfalse
  | DeadSpec.tt => bddtrue
  | DeadSpec.ap v => bdd_ithvar v

/-! ## Successor iteration (tcltl_kripke::succ_iter) -/

/-- The observable content of the iterator built by
`tcltl_kripke::succ_iter`: the materialized transition batch (destination
zone-graph states, in order) and the common edge condition. -/
structure SuccResult where
  transitions : List ZState
  cond : bdd
deriving DecidableEq

/-- Embedding of `tcltl_kripke::succ_iter`: materialize all outgoing destinations; AND
`alive_prop` into the state condition if the batch is non-empty, else AND
`dead_prop` and, when the resulting condition is not the false BDD, append a
single self-loop back to the source. -/
def succ_iter (outgoing : List ZState) (src : ZState) (ps : List one_prop)
    (alive dead : bdd) : SuccResult :=
  let scond := state_condition src ps
  if outgoing.isEmpty then
    let scond2 := bddAnd scond dead
    if bddIsFalseB scond2 then ⟨[], scond2⟩ else ⟨[src], scond2⟩
  else ⟨outgoing, bddAnd scond alive⟩

/-! ## The pooled state handle (struct tcltl_state) -/

/-- Embedding of `struct tcltl_state`: a pool-allocated, reference-counted
wrapper around a zone-graph state.  `addr` is the pool-cell address (pointer
identity), `hash_val` the hash cached at construction, `count` the mutable
reference count. -/
structure tcltl_state where
  addr : Nat
  hash_val : Nat
  count : Nat
  zg_state : ZState
deriving DecidableEq

/-- The `tcltl_state` constructor via placement new on a fresh pool cell:
count starts at 1 and the hash is computed once, by the external
`hash_value` function (a parameter of the embedding). -/
def tcltl_state.alloc (addr : Nat) (hashFn : ZState → Nat) (z : ZState) :
    tcltl_state :=
  ⟨addr, hashFn z, 1, z⟩

/-- Embedding of `tcltl_state::clone`: increment the count and return the same object. -/
def tcltl_state.clone (h : tcltl_state) : tcltl_state :=
  { h with count := h.count + 1 }

/-- Iterated `clone`. -/
def tcltl_state.cloneN : Nat → tcltl_state → tcltl_state
  | 0, h => h
  | n + 1, h => tcltl_state.cloneN n h.clone

/-- Outcome of one `tcltl_state::destroy` call: the handle afterwards (none
once destructed), whether the pool cell was deallocated by this call, and
whether the owned zone-graph state reference was released by this call. -/
structure DestroyResult where
  handle : Option tcltl_state
  cellFreed : Bool
  zgReleased : Bool
deriving DecidableEq

/-- Embedding of `tcltl_state::destroy` on a live handle (`count ≥ 1`): decrement the
count; when it reaches 0, run the destructor (releasing the zone-graph state
reference) and return the cell to the pool. -/
def tcltl_state.destroy (h : tcltl_state) : DestroyResult :=
  if h.count - 1 = 0 then ⟨none, true, true⟩
  else ⟨some { h with count := h.count - 1 }, false, false⟩

/-- Embedding of `tcltl_state::hash`: return the cached hash. -/
def tcltl_state.hash (h : tcltl_state) : Nat := h.hash_val

/-- Embedding of `tcltl_state::compare`: pointer-identity check, then cached-hash
comparison, then structural equality of the wrapped states (0 when equal,
1 when not). -/
def tcltl_state.compare (a b : tcltl_state) : Int :=
  if a.addr = b.addr then 0
  else if a.hash_val < b.hash_val then -1
  else if b.hash_val < a.hash_val then 1
  else if a.zg_state = b.zg_state then 0 else 1

/-- State threaded through iterated `destroy` calls: the handle (if still
live) and how many pool cells / zone-graph references have been given back
so far. -/
structure RcState where
  handle : Option tcltl_state
  cellsFreed : Nat
  zgReleases : Nat
deriving DecidableEq

/-- Iterated `tcltl_state::destroy`, accumulating the release effects. -/
def destroyN : Nat → RcState → RcState
  | 0, st => st
  | n + 1, st =>
    match st.handle with
    | none => destroyN n st
    | some h =>
      destroyN n
        ⟨(h.destroy).handle,
         st.cellsFreed + (if (h.destroy).cellFreed then 1 else 0),
         st.zgReleases + (if (h.destroy).zgReleased then 1 else 0)⟩

/-! ## tcltl_kripke::get_init_state -/

/-- Embedding of `tcltl_kripke::get_init_state`: walk the builder's initial-state range;
allocate a handle for the first state; on a second state, throw
(the handle already allocated for the first state is not destroyed).
`poolLive` counts the live cells of the state pool; the second component of
the result is the live-cell count when the function returns or throws. -/
def get_init_state (hashFn : ZState → Nat) (inits : List ZState)
    (poolLive : Nat) : Except String (Option tcltl_state) × Nat :=
  match inits with
  | [] => (Except.ok none, poolLive)
  | [z] => (Except.ok (some (tcltl_state.alloc poolLive hashFn z)),
            poolLive + 1)
  | _ :: _ :: _ =>
      (Except.error "multiple initial states not supported", poolLive + 1)

/-! ## The command-line driver (main) -/

/-- The last command-line argument (`argv[argc - 1]`). -/
def lastArg : List String → Option String
  | [] => none
  | [a] => some a
  | _ :: b :: rest => lastArg (b :: rest)

/-- Exit code of `main`, embedded over the outcomes of its external calls:
`parseFails` — the formula parser reported errors; `throwsInTry` — the body
of the try block (model load, proposition conversion, exploration) threw;
`violated` — `intersecting_run` found a counterexample.  `args` is `argv`
without the program name. -/
def tcltl_main (args : List String) (parseFails throwsInTry violated : Bool) :
    Nat :=
  let argc := 1 + args.length
  if argc < 2 ∨ 4 < argc then 1
  else
    let argc2 := if lastArg args = some "-D" then argc - 1 else argc
    if 3 ≤ argc2 ∧ parseFails = true then 1
    else if throwsInTry then 2
    else if 3 ≤ argc2 ∧ violated = true then 1
    else 0

/-! ## The proposition compiler (convert_aps)

The per-proposition parsing loop of `convert_aps` works on a C string with
an in-place cursor.  The embedding mirrors it on `List Char`: skip leading
blanks; copy characters (skipping interior blanks, remembering the last
copied dot) until a comparator character or the end; then either resolve an
integer variable and parse an optional comparator and integer, or split at
the last dot and resolve a process and one of its locations. -/

/-- Blank characters skipped by the scanner (space and tab). -/
def isBlank (c : Char) : Bool := c == ' ' || c == '\t'

/-- Characters that terminate the name scan. -/
def isStop (c : Char) : Bool := c == '=' || c == '<' || c == '!' || c == '>'

/-- The name-copying loop: returns the copied name (blanks removed) and the
unconsumed rest (empty or starting with a comparator character). -/
def scanName : List Char → List Char × List Char
  | [] => ([], [])
  | c :: rest =>
    if isStop c then ([], c :: rest)
    else if isBlank c then scanName rest
    else
      let r := scanName rest
      (c :: r.1, r.2)

/-- Split a name at its last dot (`lastdot` of the source): the part before
and the part after. -/
def splitLastDot : List Char → Option (List Char × List Char)
  | [] => none
  | c :: rest =>
    match splitLastDot rest with
    | some pl => some (c :: pl.1, pl.2)
    | none => if c == '.' then some ([], rest) else none

/-- Decimal digits to a number. -/
def digitsToNat (l : List Char) : Nat :=
  l.foldl (fun acc c => acc * 10 + (c.toNat - 48)) 0

/-- Embedding of `strtol(s, &s_end, 10)`: an optional sign then decimal digits, returning
the value and the rest, or `none` when no digits were consumed
(`s == s_end`). -/
def parseInt : List Char → Option (Int × List Char)
  | '-' :: r =>
    if (r.takeWhile Char.isDigit) = [] then none
    else some (-(digitsToNat (r.takeWhile Char.isDigit) : Int),
               r.dropWhile Char.isDigit)
  | '+' :: r =>
    if (r.takeWhile Char.isDigit) = [] then none
    else some ((digitsToNat (r.takeWhile Char.isDigit) : Int),
               r.dropWhile Char.isDigit)
  | l =>
    if (l.takeWhile Char.isDigit) = [] then none
    else some ((digitsToNat (l.takeWhile Char.isDigit) : Int),
               l.dropWhile Char.isDigit)

/-- A compiled rule before dictionary registration: `one_prop` without the
bdd variable (which `register_proposition` supplies). -/
structure ParsedProp where
  var_num : Nat
  op : relop
  val : Int
deriving DecidableEq

/-- The diagnostics `convert_aps` appends to its error stream, with the
data each message carries. -/
inductive PErr where
  | cannotParse (str : List Char)
  | noVarOrProc (name : List Char) (str : List Char)
  | noLocation (loc : List Char) (pname : List Char)
  | trailingGarbage (rest : List Char) (str : List Char)
  | unexpectedOp (rest : List Char) (str : List Char)
  | badInteger (rest : List Char)
deriving DecidableEq

/-- The model lookup tables consulted by `convert_aps`: integer-variable
index, process index, and the per-process location table
(`sys.location(process, location)->id()`). -/
structure TCModel where
  vars : List (List Char × Nat)
  procs : List (List Char × Nat)
  locs : List ((List Char × List Char) × Nat)

/-- The comparator-and-integer tail of the grammar (`NAME COMPARATOR
INTEGER`), applied once an integer variable `varid` was resolved:
one of `== != < > <= >=` then blanks then an integer then blanks. -/
def parse_op_val (str0 : List Char) (varid : Nat) (rest : List Char) :
    Except PErr ParsedProp :=
  match rest with
  | [] => Except.ok ⟨varid, relop.OP_NE, 0⟩
  | c :: r =>
    match
      (if c == '!' then
        match r with
        | '=' :: r2 => some (relop.OP_NE, r2)
        | _ => none
      else if c == '=' then
        match r with
        | '=' :: r2 => some (relop.OP_EQ, r2)
        | _ => none
      else if c == '<' then
        match r with
        | '=' :: r2 => some (relop.OP_LE, r2)
        | _ => some (relop.OP_LT, r)
      else if c == '>' then
        match r with
        | '=' :: r2 => some (relop.OP_GE, r2)
        | _ => some (relop.OP_GT, r)
      else none : Option (relop × List Char)) with
    | none => Except.error (PErr.unexpectedOp (c :: r) str0)
    | some opr =>
      match parseInt ((opr.2).dropWhile isBlank) with
      | none => Except.error (PErr.badInteger ((opr.2).dropWhile isBlank))
      | some vr =>
        if (vr.2).dropWhile isBlank = [] then
          Except.ok ⟨varid, opr.1, vr.1⟩
        else Except.error
          (PErr.unexpectedOp ((vr.2).dropWhile isBlank) str0)

/-- The per-proposition body of `convert_aps`: parse one observed
proposition text into a rule or a diagnostic. -/
def parse_prop (M : TCModel) (str0 : List Char) : Except PErr ParsedProp :=
  if str0.dropWhile isBlank = [] then Except.error (PErr.cannotParse str0)
  else if (scanName (str0.dropWhile isBlank)).1 = [] then
    Except.error (PErr.cannotParse str0)
  else
    match M.vars.lookup (scanName (str0.dropWhile isBlank)).1 with
    | some varid =>
        parse_op_val str0 varid (scanName (str0.dropWhile isBlank)).2
    | none =>
      match splitLastDot (scanName (str0.dropWhile isBlank)).1 with
      | none =>
          Except.error
            (PErr.noVarOrProc (scanName (str0.dropWhile isBlank)).1 str0)
      | some pl =>
        match M.procs.lookup pl.1 with
        | none => Except.error (PErr.noVarOrProc pl.1 str0)
        | some procid =>
          match M.locs.lookup (pl.1, pl.2) with
          | none => Except.error (PErr.noLocation pl.2 pl.1)
          | some locid =>
            if (scanName (str0.dropWhile isBlank)).2 = [] then
              Except.ok ⟨procid, relop.OP_AT, (locid : Int)⟩
            else
              Except.error
                (PErr.trailingGarbage (scanName (str0.dropWhile isBlank)).2
                  str0)

/-- The accumulator of the `convert_aps` loop: the rule list built so far
(`out`), the proposition names registered in the shared bdd dictionary so
far, and the diagnostics accumulated so far (`err` stream and `errors`
counter).  Fresh bdd-variable ids are modelled as the registration rank. -/
structure ConvState where
  out : List one_prop
  registered : List (List Char)
  errs : List PErr
deriving DecidableEq

/-- One iteration of the `convert_aps` loop: skip the designated dead
proposition; on a parse failure append the diagnostic and continue; on
success register the proposition (obtaining a fresh bdd variable) and
append the rule. -/
def conv_step (M : TCModel) (dead : Option (List Char)) (st : ConvState)
    (ap : List Char) : ConvState :=
  if some ap = dead then st
  else
    match parse_prop M ap with
    | Except.error e => { st with errs := st.errs ++ [e] }
    | Except.ok p =>
      { st with
        out := st.out ++ [⟨p.var_num, p.op, p.val, st.registered.length⟩],
        registered := st.registered ++ [ap] }

/-- The full `convert_aps` loop over the observed propositions. -/
def convert_aps (M : TCModel) (aps : List (List Char))
    (dead : Option (List Char)) : ConvState :=
  aps.foldl (conv_step M dead) ⟨[], [], []⟩

/-- The result `convert_aps` hands to its caller: the rule list on success,
or (`if (errors) throw`) the aggregated diagnostics. -/
def convert_result (M : TCModel) (aps : List (List Char))
    (dead : Option (List Char)) : Except (List PErr) (List one_prop) :=
  if (convert_aps M aps dead).errs = [] then
    Except.ok (convert_aps M aps dead).out
  else Except.error (convert_aps M aps dead).errs

/-- Embedding of `tc_model::kripke` around `convert_aps`: on failure the catch block
unregisters every bdd variable registered for the batch and rethrows, so
the surviving dictionary registrations of the batch are empty; on success
the registrations stay. -/
def kripke_props (M : TCModel) (aps : List (List Char))
    (dead : Option (List Char)) :
    Except (List PErr) (List one_prop) × List (List Char) :=
  if (convert_aps M aps dead).errs = [] then
    (Except.ok (convert_aps M aps dead).out,
     (convert_aps M aps dead).registered)
  else (Except.error (convert_aps M aps dead).errs, [])

/-- Characters that are copied verbatim by the name scanner: neither blank
nor a comparator character. -/
def goodChar (c : Char) : Bool := !(isBlank c) && !(isStop c)

/-- Whether `convert_aps` compiled one proposition (as opposed to logging a
diagnostic for it). -/
def exceptIsOk : Except PErr ParsedProp → Bool
  | Except.ok _ => true
  | Except.error _ => false

/-- A proposition of the batch that is attempted and fails to compile. -/
def prop_fails (M : TCModel) (dead : Option (List Char))
    (ap : List Char) : Bool :=
  !(decide (some ap = dead)) && !(exceptIsOk (parse_prop M ap))

/-- A proposition of the batch that is attempted and compiles. -/
def prop_ok (M : TCModel) (dead : Option (List Char))
    (ap : List Char) : Bool :=
  !(decide (some ap = dead)) && exceptIsOk (parse_prop M ap)

/-- Lookup tables of a two-location model with one integer variable `x`,
one process `p` with location `i`, used by concrete witnesses. -/
def sampleModel : TCModel :=
  ⟨[(['x'], 0)], [(['p'], 1)], [((['p'], ['i']), 7)]⟩

/-! ## Theorems -/

theorem bddIsFalseB_iff_unsat (b : bdd) :
    bddIsFalseB b = true ↔ ∀ v, bddEval v b = false := by
  cases b with
  | ff => simp [bddIsFalseB, bddEval]
  | lits l =>
    simp only [bddIsFalseB, bddEval, List.any_eq_true, List.all_eq_true]
    constructor
    · rintro ⟨p, hp, q, hq, hpq⟩ v
      simp only [Bool.and_eq_true, beq_iff_eq, bne_iff_ne, ne_eq] at hpq
      by_contra hall
      simp only [Bool.not_eq_false, List.all_eq_true] at hall
      have h1 := hall p hp
      have h2 := hall q hq
      simp only [evalLit, beq_iff_eq] at h1 h2
      exact hpq.2 (h1 ▸ h2 ▸ (hpq.1 ▸ rfl))
    · intro hunsat
      by_contra hno
      push_neg at hno
      have hv := hunsat (fun n => (n, true) ∈ l)
      simp only [List.all_eq_true] at hv
      rw [Bool.eq_false_iff] at hv
      apply hv
      simp only [List.all_eq_true]
      intro p hp
      simp only [evalLit, beq_iff_eq]
      rcases p with ⟨n, b⟩
      cases b with
      | true => simp [hp]
      | false =>
        simp only [decide_eq_false_iff_not]
        intro hmem
        have := hno (n, true) hmem (n, false) hp
        simp at this

/-- If no complementary pair occurs, the conjunction is satisfiable. -/
theorem bdd_sat_of_not_false (b : bdd) (h : bddIsFalseB b = false) :
    ∃ v, bddEval v b = true := by
  by_contra hno
  push_neg at hno
  have : bddIsFalseB b = true := by
    rw [bddIsFalseB_iff_unsat]
    intro v
    exact Bool.eq_false_iff.mpr (fun hv => absurd hv (by simpa using hno v))
  rw [this] at h
  cases h

/-! ## Helper lemmas -/

theorem nodup_not_false (l : List Lit) (h : (l.map Prod.fst).Nodup) :
    bddIsFalseB (bdd.lits l) = false := by
  rw [Bool.eq_false_iff]
  intro htrue
  simp only [bddIsFalseB, List.any_eq_true, Bool.and_eq_true, beq_iff_eq,
    bne_iff_ne, ne_eq] at htrue
  obtain ⟨p, hp, q, hq, hfst, hsnd⟩ := htrue
  exact hsnd (congrArg Prod.snd (List.inj_on_of_nodup_map h hp hq hfst))

theorem cloneN_alloc (k addr0 : Nat) (hashFn : ZState → Nat) (z : ZState) :
    tcltl_state.cloneN k (tcltl_state.alloc addr0 hashFn z) =
      ⟨addr0, hashFn z, 1 + k, z⟩ := by
  have hgen : ∀ (k : Nat) (h : tcltl_state),
      tcltl_state.cloneN k h = { h with count := h.count + k } := by
    intro k
    induction k with
    | zero => intro h; simp [tcltl_state.cloneN]
    | succ n ih =>
      intro h
      simp only [tcltl_state.cloneN, ih, tcltl_state.clone]
      congr 1
      omega
  rw [hgen]
  simp [tcltl_state.alloc]

theorem destroyN_live (j : Nat) (h : tcltl_state) (hj : j < h.count) :
    destroyN j ⟨some h, 0, 0⟩ = ⟨some { h with count := h.count - j }, 0, 0⟩ := by
  induction j generalizing h with
  | zero => simp [destroyN]
  | succ n ih =>
    have hcount : ¬ (h.count - 1 = 0) := by omega
    have hstep : destroyN (n + 1) ⟨some h, 0, 0⟩ =
        destroyN n ⟨some { h with count := h.count - 1 }, 0, 0⟩ := by
      simp [destroyN, tcltl_state.destroy, hcount]
    rw [hstep, ih { h with count := h.count - 1 } (by simp; omega)]
    have harith : h.count - 1 - n = h.count - (n + 1) := by omega
    simp [harith]

theorem destroyN_add (m n : Nat) (st : RcState) :
    destroyN (m + n) st = destroyN n (destroyN m st) := by
  induction m generalizing st with
  | zero => simp [destroyN]
  | succ k ih =>
    rw [show k + 1 + n = (k + n) + 1 by omega]
    obtain ⟨oh, c, z⟩ := st
    cases oh with
    | none => simp only [destroyN]; exact ih _
    | some h => simp only [destroyN]; exact ih _

theorem destroyN_dead (h : tcltl_state) (hc : 1 ≤ h.count) :
    destroyN h.count ⟨some h, 0, 0⟩ = ⟨none, 1, 1⟩ := by
  have : h.count = (h.count - 1) + 1 := by omega
  rw [this, destroyN_add, destroyN_live (h.count - 1) h (by omega)]
  simp only [destroyN, tcltl_state.destroy]
  have : h.count - (h.count - 1) - 1 = 0 := by omega
  simp [this]

/-! ## Claim theorems: handle lifecycle, hashing, comparison -/

/-- C4: `compare` returns 0 on pointer identity; otherwise -1/1 by cached
hash; on a hash tie it returns 0 for structurally equal wrapped states and
1 otherwise, hence is never negative on a hash tie; and there are distinct
handles with colliding hashes and unequal states on which both orientations
return 1, so the relation is not a true total order. -/
theorem tcltl_compare_spec (a b : tcltl_state) :
    (a.addr = b.addr → tcltl_state.compare a b = 0)
    ∧ (a.addr ≠ b.addr → a.hash_val < b.hash_val →
        tcltl_state.compare a b = -1)
    ∧ (a.addr ≠ b.addr → b.hash_val < a.hash_val →
        tcltl_state.compare a b = 1)
    ∧ (a.addr ≠ b.addr → a.hash_val = b.hash_val →
        tcltl_state.compare a b = (if a.zg_state = b.zg_state then 0 else 1)
        ∧ 0 ≤ tcltl_state.compare a b)
    ∧ (∃ c d : tcltl_state, c.addr ≠ d.addr ∧ c.hash_val = d.hash_val
        ∧ c.zg_state ≠ d.zg_state
        ∧ tcltl_state.compare c d = 1 ∧ tcltl_state.compare d c = 1) := by
  refine ⟨?_, ?_, ?_, ?_, ?_⟩
  · intro h; simp [tcltl_state.compare, h]
  · intro h hlt; simp [tcltl_state.compare, h, hlt]
  · intro h hlt
    simp [tcltl_state.compare, h, hlt, Nat.lt_asymm hlt]
  · intro h heq
    constructor
    · simp [tcltl_state.compare, h, heq, Nat.lt_irrefl]
    · simp only [tcltl_state.compare, h, heq, Nat.lt_irrefl, if_false]
      split <;> norm_num
  · refine ⟨⟨0, 0, 1, ⟨[], []⟩⟩, ⟨1, 0, 1, ⟨[0], []⟩⟩, ?_, ?_, ?_, ?_, ?_⟩
      <;> decide

/-- C5: a handle allocated with count 1 and cloned k times survives the
first k destroy calls (with no pool cell nor zone-graph reference given
back), and the (1+k)-th destroy destructs it, releasing the zone-graph
reference and returning the cell to the pool, both exactly at that step. -/
theorem tcltl_refcount_lifecycle (k j addr0 : Nat) (hashFn : ZState → Nat)
    (z : ZState) (hj : j ≤ k) :
    destroyN j ⟨some (tcltl_state.cloneN k (tcltl_state.alloc addr0 hashFn z)),
        0, 0⟩ = ⟨some ⟨addr0, hashFn z, 1 + k - j, z⟩, 0, 0⟩
    ∧ destroyN (k + 1)
        ⟨some (tcltl_state.cloneN k (tcltl_state.alloc addr0 hashFn z)), 0, 0⟩
      = ⟨none, 1, 1⟩ := by
  rw [cloneN_alloc]
  constructor
  · rw [destroyN_live j _ (by simp; omega)]
  · have := destroyN_dead ⟨addr0, hashFn z, 1 + k, z⟩ (by simp)
    simpa [show 1 + k = k + 1 by omega] using this

/-- C5 witness: a handle cloned twice survives two destroys and dies at the
third, which frees the cell and the state reference. -/
theorem tcltl_refcount_lifecycle_witness :
    destroyN 2 ⟨some (tcltl_state.cloneN 2
        (tcltl_state.alloc 7 (fun z => z.vloc.length) ⟨[4], [2]⟩)), 0, 0⟩
      = ⟨some ⟨7, 1, 1, ⟨[4], [2]⟩⟩, 0, 0⟩
    ∧ destroyN 3 ⟨some (tcltl_state.cloneN 2
        (tcltl_state.alloc 7 (fun z => z.vloc.length) ⟨[4], [2]⟩)), 0, 0⟩
      = ⟨none, 1, 1⟩ :=
  tcltl_refcount_lifecycle 2 2 7 (fun z => z.vloc.length) ⟨[4], [2]⟩
    (by decide)

/-- C9: the cached hash is unchanged by `clone` and by a non-final
`destroy`, and two handles allocated from structurally equal zone-graph
states (under the same external hash function) have equal hashes. -/
theorem tcltl_hash_stable_structural :
    (∀ h : tcltl_state, h.clone.hash = h.hash)
    ∧ (∀ h h2 : tcltl_state, (h.destroy).handle = some h2 → h2.hash = h.hash)
    ∧ (∀ (hashFn : ZState → Nat) (a1 a2 : Nat) (z1 z2 : ZState), z1 = z2 →
        (tcltl_state.alloc a1 hashFn z1).hash =
          (tcltl_state.alloc a2 hashFn z2).hash) := by
  refine ⟨fun h => rfl, ?_, ?_⟩
  · intro h h2 hd
    simp only [tcltl_state.destroy] at hd
    split at hd
    · cases hd
    · cases hd; rfl
  · intro hashFn a1 a2 z1 z2 hz
    subst hz
    rfl

/-- C9 witness: instances of hash stability through clone and destroy, and
hash agreement for two handles over the same state. -/
theorem tcltl_hash_stable_structural_witness :
    ((⟨3, 9, 2, ⟨[1], []⟩⟩ : tcltl_state).destroy).handle =
        some ⟨3, 9, 1, ⟨[1], []⟩⟩ ∧
    (⟨3, 9, 1, ⟨[1], []⟩⟩ : tcltl_state).hash =
        (⟨3, 9, 2, ⟨[1], []⟩⟩ : tcltl_state).hash ∧
    (tcltl_state.alloc 0 (fun z => z.intvars.length) ⟨[], [5]⟩).hash =
        (tcltl_state.alloc 8 (fun z => z.intvars.length) ⟨[], [5]⟩).hash :=
  ⟨by decide,
   tcltl_hash_stable_structural.2.1 ⟨3, 9, 2, ⟨[1], []⟩⟩
     ⟨3, 9, 1, ⟨[1], []⟩⟩ (by decide),
   tcltl_hash_stable_structural.2.2 (fun z => z.intvars.length) 0 8
     ⟨[], [5]⟩ ⟨[], [5]⟩ rfl⟩

/-! ## Claim theorems: get_init_state -/

/-- C10: an empty initial-state sequence makes `get_init_state` return a
null handle, with no error raised and no pool cell allocated. -/
theorem get_init_state_empty (hashFn : ZState → Nat) (poolLive : Nat) :
    get_init_state hashFn [] poolLive = (Except.ok none, poolLive) := rfl

/-- C3 counterexample: with two initial states, `get_init_state` throws, but
the pool's live-cell count at the throw is 1, not 0: the cell allocated for
the first initial state is not reclaimed before the error propagates. -/
theorem get_init_state_multi_leak_cex :
    get_init_state (fun _ => 0) [⟨[], []⟩, ⟨[], []⟩] 0 =
      (Except.error "multiple initial states not supported", 1)
    ∧ (1 : Nat) ≠ 0 := by
  constructor
  · rfl
  · decide

/-- C3 (amended): with more than one initial state, `get_init_state` raises
the fatal configuration error and returns no handle, but the pooled handle
already allocated for the first observed initial state is not released: the
live-cell count stays incremented when the error propagates. -/
theorem get_init_state_multi_error (hashFn : ZState → Nat)
    (inits : List ZState) (poolLive : Nat) (h : 2 ≤ inits.length) :
    get_init_state hashFn inits poolLive =
      (Except.error "multiple initial states not supported", poolLive + 1) := by
  match inits with
  | [] => simp at h
  | [z] => simp at h
  | a :: b :: t => rfl

/-- C3 witness: the amended statement at a concrete two-state sequence. -/
theorem get_init_state_multi_error_witness :
    get_init_state (fun _ => 0) [⟨[0], []⟩, ⟨[1], []⟩] 5 =
      (Except.error "multiple initial states not supported", 6) :=
  get_init_state_multi_error (fun _ => 0) [⟨[0], []⟩, ⟨[1], []⟩] 5 (by decide)

/-! ## Claim theorems: successor iteration and aliveness -/

theorem map_fst_state_condition (z : ZState) (ps : List one_prop) :
    (ps.map fun p => (p.bddvar, prop_holds z p)).map Prod.fst =
      ps.map one_prop.bddvar := by
  simp [List.map_map]

/-- C1: when the zone graph reports no outgoing transition and the dead
condition is not the constant-false BDD, `succ_iter` yields exactly one
transition, back to the source state itself, whose label is
`state_condition(s) AND dead_prop`.  The hypotheses reflect the bdd_dict
discipline: the observed propositions carry pairwise distinct bdd
variables, and the dead proposition's variable (registered separately by
the constructor and skipped by `convert_aps`) is not among them. -/
theorem succ_iter_dead_selfloop (d : DeadSpec) (src : ZState)
    (ps : List one_prop)
    (hnodup : (ps.map one_prop.bddvar).Nodup)
    (hdead : ∀ v, d = DeadSpec.ap v → v ∉ ps.map one_prop.bddvar)
    (hne : dead_prop d ≠ bddfalse) :
    succ_iter [] src ps (alive_prop d) (dead_prop d) =
      ⟨[src], bddAnd (state_condition src ps) (dead_prop d)⟩ := by
  have hfalse :
      bddIsFalseB (bddAnd (state_condition src ps) (dead_prop d)) = false := by
    cases d with
    | ff => exact absurd rfl hne
    | tt =>
      simp only [dead_prop, bddtrue, state_condition, bddAnd]
      apply nodup_not_false
      rw [List.map_append, map_fst_state_condition]
      simpa using hnodup
    | ap v =>
      have hv : v ∉ ps.map one_prop.bddvar := hdead v rfl
      simp only [dead_prop, bdd_ithvar, state_condition, bddAnd]
      apply nodup_not_false
      rw [List.map_append, map_fst_state_condition]
      refine List.Nodup.append hnodup (List.nodup_singleton _) ?_
      simpa [List.disjoint_singleton] using hv
  simp [succ_iter, hfalse]

/-- C1 witness: a dead state with a named dead proposition gets exactly the
self-loop with the combined label. -/
theorem succ_iter_dead_selfloop_witness :
    succ_iter [] ⟨[0], [0]⟩ [⟨0, relop.OP_NE, 0, 0⟩]
        (alive_prop (DeadSpec.ap 5)) (dead_prop (DeadSpec.ap 5)) =
      ⟨[⟨[0], [0]⟩], bddAnd (state_condition ⟨[0], [0]⟩ [⟨0, relop.OP_NE, 0, 0⟩])
        (dead_prop (DeadSpec.ap 5))⟩ :=
  succ_iter_dead_selfloop (DeadSpec.ap 5) ⟨[0], [0]⟩ [⟨0, relop.OP_NE, 0, 0⟩]
    (by decide) (by intro v hv; cases hv; decide) (by decide)

theorem bddImp_bddtrue (a : bdd) : bddImp a bddtrue := by
  intro v h
  rfl

theorem bddImp_lit_mem (l : List Lit) (x : Lit) (hx : x ∈ l) :
    bddImp (bdd.lits l) (bdd.lits [x]) := by
  intro v h
  simp only [bddEval, List.all_eq_true] at h
  simpa [bddEval] using h x hx

theorem not_bddImp_bddfalse (b : bdd) (hsat : bddIsFalseB b = false) :
    ¬ bddImp b bddfalse := by
  intro himp
  obtain ⟨v, hv⟩ := bdd_sat_of_not_false b hsat
  have hcontra := himp v hv
  simp [bddEval, bddfalse] at hcontra

theorem not_bddImp_of_sat_opp (l : List Lit) (n : Nat) (pol : Bool)
    (hmem : (n, pol) ∈ l) (hsat : bddIsFalseB (bdd.lits l) = false) :
    ¬ bddImp (bdd.lits l) (bdd.lits [(n, !pol)]) := by
  intro himp
  obtain ⟨v, hv⟩ := bdd_sat_of_not_false _ hsat
  have h1 : evalLit v (n, pol) = true := by
    simp only [bddEval, List.all_eq_true] at hv
    exact hv _ hmem
  have h2 := himp v hv
  simp only [bddEval, List.all_eq_true, List.mem_singleton, forall_eq] at h2
  simp only [evalLit, beq_iff_eq] at h1 h2
  rw [h1] at h2
  cases pol <;> simp at h2

/-- C2 (amended): for every configured dead formula other than the constant
true — i.e. `false` or a named proposition — every edge label produced by
`succ_iter` semantically includes exactly one of alive_prop and dead_prop;
in particular a state with at least one zone-graph transition gets labels
including alive_prop and never dead_prop.  (When the dead formula is the
constant true, alive_prop = dead_prop = true and both hold on every edge;
see the counterexample.) -/
theorem succ_iter_alive_dead_exclusive (d : DeadSpec) (outgoing : List ZState)
    (src : ZState) (ps : List one_prop)
    (hnodup : (ps.map one_prop.bddvar).Nodup)
    (hdead : ∀ v, d = DeadSpec.ap v → v ∉ ps.map one_prop.bddvar)
    (htt : d ≠ DeadSpec.tt) :
    (outgoing ≠ [] →
      bddImp (succ_iter outgoing src ps (alive_prop d) (dead_prop d)).cond
          (alive_prop d)
      ∧ ¬ bddImp (succ_iter outgoing src ps (alive_prop d) (dead_prop d)).cond
          (dead_prop d))
    ∧ ((succ_iter outgoing src ps (alive_prop d) (dead_prop d)).transitions
          ≠ [] →
      (bddImp (succ_iter outgoing src ps (alive_prop d) (dead_prop d)).cond
          (alive_prop d)
        ∧ ¬ bddImp (succ_iter outgoing src ps (alive_prop d)
            (dead_prop d)).cond (dead_prop d))
      ∨ (bddImp (succ_iter outgoing src ps (alive_prop d) (dead_prop d)).cond
          (dead_prop d)
        ∧ ¬ bddImp (succ_iter outgoing src ps (alive_prop d)
            (dead_prop d)).cond (alive_prop d))) := by
  cases outgoing with
  | cons o os =>
    have hres : succ_iter (o :: os) src ps (alive_prop d) (dead_prop d) =
        ⟨o :: os, bddAnd (state_condition src ps) (alive_prop d)⟩ := by
      simp [succ_iter]
    have hlive :
        bddImp (bddAnd (state_condition src ps) (alive_prop d)) (alive_prop d)
        ∧ ¬ bddImp (bddAnd (state_condition src ps) (alive_prop d))
            (dead_prop d) := by
      cases d with
      | ff =>
        constructor
        · exact bddImp_bddtrue _
        · apply not_bddImp_bddfalse
          simp only [alive_prop, bddtrue, state_condition, bddAnd]
          apply nodup_not_false
          rw [List.map_append, map_fst_state_condition]
          simpa using hnodup
      | tt => exact absurd rfl htt
      | ap v =>
        have hv : v ∉ ps.map one_prop.bddvar := hdead v rfl
        have hsat : bddIsFalseB (bddAnd (state_condition src ps)
            (alive_prop (DeadSpec.ap v))) = false := by
          simp only [alive_prop, bdd_nithvar, state_condition, bddAnd]
          apply nodup_not_false
          rw [List.map_append, map_fst_state_condition]
          refine List.Nodup.append hnodup (List.nodup_singleton _) ?_
          simpa [List.disjoint_singleton] using hv
        constructor
        · simp only [alive_prop, bdd_nithvar, state_condition, bddAnd]
          exact bddImp_lit_mem _ (v, false) (by simp)
        · simp only [alive_prop, bdd_nithvar, dead_prop, bdd_ithvar,
            state_condition, bddAnd] at hsat ⊢
          have := not_bddImp_of_sat_opp
            ((ps.map fun p => (p.bddvar, prop_holds src p)) ++ [(v, false)])
            v false (by simp) hsat
          simpa using this
    rw [hres]
    exact ⟨fun _ => hlive, fun _ => Or.inl hlive⟩
  | nil =>
    refine ⟨fun habs => absurd rfl habs, ?_⟩
    intro htrans
    cases d with
    | tt => exact absurd rfl htt
    | ff =>
      exfalso
      apply htrans
      simp [succ_iter, state_condition, dead_prop, bddfalse, bddAnd,
        bddIsFalseB]
    | ap v =>
      have hv : v ∉ ps.map one_prop.bddvar := hdead v rfl
      have hsat : bddIsFalseB (bddAnd (state_condition src ps)
          (dead_prop (DeadSpec.ap v))) = false := by
        simp only [dead_prop, bdd_ithvar, state_condition, bddAnd]
        apply nodup_not_false
        rw [List.map_append, map_fst_state_condition]
        refine List.Nodup.append hnodup (List.nodup_singleton _) ?_
        simpa [List.disjoint_singleton] using hv
      have hres : succ_iter [] src ps (alive_prop (DeadSpec.ap v))
          (dead_prop (DeadSpec.ap v)) =
          ⟨[src], bddAnd (state_condition src ps)
            (dead_prop (DeadSpec.ap v))⟩ := by
        simp [succ_iter, hsat]
      rw [hres]
      refine Or.inr ⟨?_, ?_⟩
      · simp only [dead_prop, bdd_ithvar, state_condition, bddAnd]
        exact bddImp_lit_mem _ (v, true) (by simp)
      · simp only [alive_prop, bdd_nithvar, dead_prop, bdd_ithvar,
          state_condition, bddAnd] at hsat ⊢
        have := not_bddImp_of_sat_opp
          ((ps.map fun p => (p.bddvar, prop_holds src p)) ++ [(v, true)])
          v true (by simp) hsat
        simpa using this

/-- C2 counterexample: with the dead formula configured as the constant
true, alive_prop = dead_prop = bddtrue, and the label of an edge leaving a
live state includes both — the "exactly one of alive/dead, never both"
part of the claim fails for that configuration. -/
theorem succ_iter_dead_tt_both_cex :
    bddImp (succ_iter [⟨[1], []⟩] ⟨[0], []⟩ [] (alive_prop DeadSpec.tt)
        (dead_prop DeadSpec.tt)).cond (alive_prop DeadSpec.tt)
    ∧ bddImp (succ_iter [⟨[1], []⟩] ⟨[0], []⟩ [] (alive_prop DeadSpec.tt)
        (dead_prop DeadSpec.tt)).cond (dead_prop DeadSpec.tt) := by
  constructor <;> exact fun v h => rfl

/-- C2 witness: the amended statement instantiated on a live state with a
named dead proposition. -/
theorem succ_iter_alive_dead_exclusive_witness :
    bddImp (succ_iter [⟨[1], []⟩] ⟨[0], []⟩ [⟨0, relop.OP_EQ, 3, 0⟩]
        (alive_prop (DeadSpec.ap 4)) (dead_prop (DeadSpec.ap 4))).cond
        (alive_prop (DeadSpec.ap 4))
    ∧ ¬ bddImp (succ_iter [⟨[1], []⟩] ⟨[0], []⟩ [⟨0, relop.OP_EQ, 3, 0⟩]
        (alive_prop (DeadSpec.ap 4)) (dead_prop (DeadSpec.ap 4))).cond
        (dead_prop (DeadSpec.ap 4)) :=
  (succ_iter_alive_dead_exclusive (DeadSpec.ap 4) [⟨[1], []⟩] ⟨[0], []⟩
      [⟨0, relop.OP_EQ, 3, 0⟩] (by decide)
      (by intro v hv; cases hv; decide) (by decide)).1
    (by decide)

/-! ## Claim theorems: driver exit codes -/

/-- C8 counterexample: a usage error (no arguments) and a formula-parse
failure both make `main` return 1, not 2, contradicting "any reported
error yields exit code 2". -/
theorem tcltl_main_error_exit_cex :
    tcltl_main [] false false false = 1
    ∧ tcltl_main [] false false false ≠ 2
    ∧ tcltl_main ["model.tc", "(a"] true false false = 1
    ∧ tcltl_main ["model.tc", "(a"] true false false ≠ 2 := by
  refine ⟨rfl, by decide, ?_, ?_⟩ <;> decide

/-- C8 (amended): the driver exits 1 when the checked formula is violated,
0 when it is verified, and 2 for errors reported through exceptions
(model-load and proposition-conversion failures); usage errors and
formula-parse failures exit with code 1, not 2. -/
theorem tcltl_main_exit_codes (m f : String) (pf vio : Bool)
    (hm : m ≠ "-D") (hf : f ≠ "-D") :
    tcltl_main [m, f] false false true = 1
    ∧ tcltl_main [m, f] false false false = 0
    ∧ tcltl_main [m, f] false true vio = 2
    ∧ tcltl_main [m] false true vio = 2
    ∧ tcltl_main [m] false false vio = 0
    ∧ tcltl_main [m, f] true false vio = 1
    ∧ tcltl_main [] pf false vio = 1
    ∧ tcltl_main [m, f, f, f] pf false vio = 1 := by
  refine ⟨?_, ?_, ?_, ?_, ?_, ?_, ?_, ?_⟩ <;>
    simp [tcltl_main, lastArg, hm, hf]

/-- C8 witness: the amended statement at concrete arguments. -/
theorem tcltl_main_exit_codes_witness :
    tcltl_main ["model.tc", "GFp"] false false true = 1
    ∧ tcltl_main ["model.tc", "GFp"] false false false = 0
    ∧ tcltl_main ["model.tc", "GFp"] false true true = 2
    ∧ tcltl_main ["model.tc"] false true true = 2
    ∧ tcltl_main ["model.tc"] false false true = 0
    ∧ tcltl_main ["model.tc", "GFp"] true false true = 1
    ∧ tcltl_main [] true false true = 1
    ∧ tcltl_main ["model.tc", "GFp", "GFp", "GFp"] true false true = 1 :=
  tcltl_main_exit_codes "model.tc" "GFp" true true (by decide) (by decide)

/-- C4 witness: instances of the branch behaviour of `compare`. -/
theorem tcltl_compare_spec_witness :
    tcltl_state.compare ⟨0, 5, 1, ⟨[], []⟩⟩ ⟨1, 7, 1, ⟨[], []⟩⟩ = -1
    ∧ tcltl_state.compare ⟨2, 9, 1, ⟨[], []⟩⟩ ⟨2, 9, 1, ⟨[], []⟩⟩ = 0 :=
  ⟨(tcltl_compare_spec ⟨0, 5, 1, ⟨[], []⟩⟩ ⟨1, 7, 1, ⟨[], []⟩⟩).2.1
      (by decide) (by decide),
   (tcltl_compare_spec ⟨2, 9, 1, ⟨[], []⟩⟩ ⟨2, 9, 1, ⟨[], []⟩⟩).1 rfl⟩

/-! ## Parser lemmas -/

theorem dropWhile_isBlank_good (n r : List Char)
    (hn : n.all goodChar = true) (hne : n ≠ []) :
    (n ++ r).dropWhile isBlank = n ++ r := by
  cases n with
  | nil => exact absurd rfl hne
  | cons c cs =>
    have hc : goodChar c = true := by
      simp only [List.all_cons, Bool.and_eq_true] at hn
      exact hn.1
    have hblank : isBlank c = false := by
      simp only [goodChar, Bool.and_eq_true, Bool.not_eq_true'] at hc
      exact hc.1
    simp [List.dropWhile_cons, hblank]

theorem scanName_good (n r : List Char) (hn : n.all goodChar = true)
    (hr : r = [] ∨ ∃ c rs, r = c :: rs ∧ isStop c = true) :
    scanName (n ++ r) = (n, r) := by
  induction n with
  | nil =>
    rcases hr with rfl | ⟨c, rs, rfl, hstop⟩
    · rfl
    · simp [scanName, hstop]
  | cons c cs ih =>
    simp only [List.all_cons, Bool.and_eq_true] at hn
    have hcg := hn.1
    simp only [goodChar, Bool.and_eq_true, Bool.not_eq_true'] at hcg
    simp [scanName, hcg.1, hcg.2, ih hn.2]

theorem splitLastDot_none (l : List Char) (h : ('.' : Char) ∉ l) :
    splitLastDot l = none := by
  induction l with
  | nil => rfl
  | cons c cs ih =>
    have hcs : ('.' : Char) ∉ cs := fun hm => h (List.mem_cons_of_mem _ hm)
    by_cases hc : c = '.'
    · subst hc
      exact absurd (List.mem_cons_self _ _) h
    · simp [splitLastDot, ih hcs, hc]

theorem splitLastDot_last (p l : List Char) (hl : ('.' : Char) ∉ l) :
    splitLastDot (p ++ '.' :: l) = some (p, l) := by
  induction p with
  | nil => simp [splitLastDot, splitLastDot_none l hl]
  | cons c cs ih => simp [splitLastDot, ih]

/-- C6: per-proposition compilation.  For a known integer variable `V`, the
text "V" compiles to the rule (V, NE, 0) and "V==3" to (V, EQ, 3).  For a
name that is no known variable, split at the last dot into process `P` and
location `L`: the text compiles to an AT-LOCATION rule exactly when `P` is
a known process and `L` one of its locations, and otherwise fails with a
diagnostic carrying the unresolved process name (together with the full
text "P.L") or the unresolved location name together with the process
name. -/
theorem convert_aps_prop_forms (M : TCModel) (V P L : List Char) (vid : Nat)
    (hVgood : V.all goodChar = true) (hVne : V ≠ [])
    (hV : M.vars.lookup V = some vid)
    (hPgood : P.all goodChar = true)
    (hLgood : L.all goodChar = true)
    (hLnodot : ('.' : Char) ∉ L)
    (hPL : M.vars.lookup (P ++ '.' :: L) = none) :
    parse_prop M V = Except.ok ⟨vid, relop.OP_NE, 0⟩
    ∧ parse_prop M (V ++ ['=', '=', '3']) = Except.ok ⟨vid, relop.OP_EQ, 3⟩
    ∧ (∀ pid lid, M.procs.lookup P = some pid →
        M.locs.lookup (P, L) = some lid →
        parse_prop M (P ++ '.' :: L) =
          Except.ok ⟨pid, relop.OP_AT, (lid : Int)⟩)
    ∧ (M.procs.lookup P = none →
        parse_prop M (P ++ '.' :: L) =
          Except.error (PErr.noVarOrProc P (P ++ '.' :: L)))
    ∧ (∀ pid, M.procs.lookup P = some pid → M.locs.lookup (P, L) = none →
        parse_prop M (P ++ '.' :: L) =
          Except.error (PErr.noLocation L P)) := by
  have hVdrop : V.dropWhile isBlank = V := by
    simpa using dropWhile_isBlank_good V [] hVgood hVne
  have hVscan : scanName V = (V, []) := by
    simpa using scanName_good V [] hVgood (Or.inl rfl)
  have hNgood : (P ++ '.' :: L).all goodChar = true := by
    simp only [List.all_append, List.all_cons, hPgood, hLgood,
      Bool.and_true, Bool.true_and]
    decide
  have hNne : (P ++ '.' :: L) ≠ [] := by simp
  have hNdrop : (P ++ '.' :: L).dropWhile isBlank = P ++ '.' :: L := by
    simpa using dropWhile_isBlank_good (P ++ '.' :: L) [] hNgood hNne
  have hNscan : scanName (P ++ '.' :: L) = (P ++ '.' :: L, []) := by
    simpa using scanName_good (P ++ '.' :: L) [] hNgood (Or.inl rfl)
  have hNsplit := splitLastDot_last P L hLnodot
  refine ⟨?_, ?_, ?_, ?_, ?_⟩
  · unfold parse_prop
    simp [hVdrop, hVscan, hVne, hV, parse_op_val]
  · have hbdrop : (V ++ ['=', '=', '3']).dropWhile isBlank =
        V ++ ['=', '=', '3'] :=
      dropWhile_isBlank_good V _ hVgood hVne
    have hbscan : scanName (V ++ ['=', '=', '3']) = (V, ['=', '=', '3']) :=
      scanName_good V _ hVgood (Or.inr ⟨'=', ['=', '3'], rfl, by decide⟩)
    unfold parse_prop
    simp [hbdrop, hbscan, hVne, hV, parse_op_val, parseInt, digitsToNat,
      isBlank]
  · intro pid lid hpid hlid
    unfold parse_prop
    simp [hNdrop, hNscan, hNne, hPL, hNsplit, hpid, hlid]
  · intro hpid
    unfold parse_prop
    simp [hNdrop, hNscan, hNne, hPL, hNsplit, hpid]
  · intro pid hpid hlid
    unfold parse_prop
    simp [hNdrop, hNscan, hNne, hPL, hNsplit, hpid, hlid]

/-- C6 witness: the three positive forms on a concrete model. -/
theorem convert_aps_prop_forms_witness :
    parse_prop sampleModel ['x'] = Except.ok ⟨0, relop.OP_NE, 0⟩
    ∧ parse_prop sampleModel (['x'] ++ ['=', '=', '3']) =
        Except.ok ⟨0, relop.OP_EQ, 3⟩
    ∧ parse_prop sampleModel (['p'] ++ '.' :: ['i']) =
        Except.ok ⟨1, relop.OP_AT, (7 : Int)⟩ :=
  have big := convert_aps_prop_forms sampleModel ['x'] ['p'] ['i'] 0
    (by decide) (by decide) (by decide) (by decide) (by decide)
    (by decide) (by decide)
  ⟨big.1, big.2.1, big.2.2.1 1 7 (by decide) (by decide)⟩

theorem convert_errs_len (M : TCModel) (dead : Option (List Char))
    (aps : List (List Char)) : ∀ st : ConvState,
    (aps.foldl (conv_step M dead) st).errs.length =
      st.errs.length + (aps.filter (prop_fails M dead)).length := by
  induction aps with
  | nil => intro st; simp
  | cons a rest ih =>
    intro st
    by_cases hd : some a = dead
    · have hfail : prop_fails M dead a = false := by
        simp [prop_fails, hd]
      simp only [List.foldl_cons, conv_step, if_pos hd, List.filter_cons,
        hfail]
      rw [ih st]
      simp
    · cases hp : parse_prop M a with
      | error e =>
        have hfail : prop_fails M dead a = true := by
          simp [prop_fails, hd, hp, exceptIsOk]
        simp only [List.foldl_cons, conv_step, if_neg hd, hp,
          List.filter_cons, hfail, if_pos]
        rw [ih _]
        simp only [List.length_append, List.length_cons, List.length_nil]
        omega
      | ok p =>
        have hfail : prop_fails M dead a = false := by
          simp [prop_fails, hd, hp, exceptIsOk]
        simp only [List.foldl_cons, conv_step, if_neg hd, hp,
          List.filter_cons, hfail]
        rw [ih _]
        simp

theorem convert_registered (M : TCModel) (dead : Option (List Char))
    (aps : List (List Char)) : ∀ st : ConvState,
    (aps.foldl (conv_step M dead) st).registered =
      st.registered ++ aps.filter (prop_ok M dead) := by
  induction aps with
  | nil => intro st; simp
  | cons a rest ih =>
    intro st
    by_cases hd : some a = dead
    · have hok : prop_ok M dead a = false := by
        simp [prop_ok, hd]
      simp only [List.foldl_cons, conv_step, if_pos hd, List.filter_cons,
        hok]
      rw [ih st]
      simp
    · cases hp : parse_prop M a with
      | error e =>
        have hok : prop_ok M dead a = false := by
          simp [prop_ok, hd, hp, exceptIsOk]
        simp only [List.foldl_cons, conv_step, if_neg hd, hp,
          List.filter_cons, hok]
        rw [ih _]
        simp
      | ok p =>
        have hok : prop_ok M dead a = true := by
          simp [prop_ok, hd, hp, exceptIsOk]
        simp only [List.foldl_cons, conv_step, if_neg hd, hp,
          List.filter_cons, hok, if_pos]
        rw [ih _]
        simp

/-- C7: with k ≥ 1 malformed (or unresolvable) propositions in the batch,
every proposition is still attempted, compilation fails with one aggregated
error holding exactly k diagnostics, no bdd variable is registered for any
failing proposition, no rule list is returned, and the caller's failure
path (`tc_model::kripke`) leaves no surviving dictionary registration for
the batch. -/
theorem convert_aps_batch_failure (M : TCModel) (aps : List (List Char))
    (dead : Option (List Char))
    (hk : 1 ≤ (aps.filter (prop_fails M dead)).length) :
    (convert_result M aps dead =
        Except.error (convert_aps M aps dead).errs
      ∧ (convert_aps M aps dead).errs.length =
          (aps.filter (prop_fails M dead)).length)
    ∧ (∀ ap ∈ aps, prop_fails M dead ap = true →
        ap ∉ (convert_aps M aps dead).registered)
    ∧ kripke_props M aps dead =
        (Except.error (convert_aps M aps dead).errs, []) := by
  have hlen : (convert_aps M aps dead).errs.length =
      (aps.filter (prop_fails M dead)).length := by
    have h0 := convert_errs_len M dead aps ⟨[], [], []⟩
    simpa [convert_aps] using h0
  have hne : (convert_aps M aps dead).errs ≠ [] := by
    intro h0
    rw [h0] at hlen
    simp only [List.length_nil] at hlen
    omega
  refine ⟨⟨?_, hlen⟩, ?_, ?_⟩
  · simp [convert_result, hne]
  · intro ap hmem hfail
    have hreg : (convert_aps M aps dead).registered =
        aps.filter (prop_ok M dead) := by
      have h0 := convert_registered M dead aps ⟨[], [], []⟩
      simpa [convert_aps] using h0
    rw [hreg]
    intro hin
    have hokk := (List.mem_filter.mp hin).2
    simp only [prop_ok, Bool.and_eq_true, Bool.not_eq_true',
      decide_eq_false_iff_not] at hokk
    simp only [prop_fails, Bool.and_eq_true, Bool.not_eq_true',
      decide_eq_false_iff_not] at hfail
    have h3 := hfail.2
    rw [hokk.2] at h3
    exact Bool.noConfusion h3
  · simp [kripke_props, hne]

/-- C7 witness: a batch with one good and one unresolvable proposition on a
concrete model. -/
theorem convert_aps_batch_failure_witness :
    (convert_result sampleModel [['x'], ['y']] none =
        Except.error (convert_aps sampleModel [['x'], ['y']] none).errs
      ∧ (convert_aps sampleModel [['x'], ['y']] none).errs.length =
          ([['x'], ['y']].filter (prop_fails sampleModel none)).length)
    ∧ (∀ ap ∈ [['x'], ['y']], prop_fails sampleModel none ap = true →
        ap ∉ (convert_aps sampleModel [['x'], ['y']] none).registered)
    ∧ kripke_props sampleModel [['x'], ['y']] none =
        (Except.error (convert_aps sampleModel [['x'], ['y']] none).errs,
         []) :=
  convert_aps_batch_failure sampleModel [['x'], ['y']] none (by decide)
